import Mathlib

/-!
Verification of the ptcg_tw card-data ingestion pipeline.

Shallow embedding of the core operations of the repository:
rate limiter (`scraper.RateLimiter.wait`), HTTP retry wrapper
(`scraper._request_with_retry`), discovery (`__main__._discover_card_ids`,
`scraper.extract_card_ids_from_list_html`), detail not-found detection
(`scraper.fetch_detail_html`), whitespace normalization
(`card_db/effects.normalize_text`), persistence (`db.upsert_card`,
`db.init_db` schema), and the sync driver loop (`__main__.cmd_sync`).

Python strings are modeled as Lean `String`/`List Char`; Python `None`
is `Option.none`; SQLite tables are modeled as a primary-key map (cards)
and an ordered row list (skills).  Python's `x or d` idiom on strings
(falsy for `None` and `""`) is `pyOr`.
-/

/-! ### Python string primitives -/

/-- Python `x or default` for an optional string: `None` and `""` are falsy. -/
def pyOr (v : Option String) (d : String) : String :=
  match v with
  | none => d
  | some s => if s = "" then d else s

/-- Characters stripped by Python `str.strip()` with no argument
(ASCII whitespace; the upstream values involved are ASCII). -/
def pyIsWS (c : Char) : Bool :=
  c == ' ' || c == '\t' || c == '\n' || c == '\r' || c == '\x0b' || c == '\x0c'

/-- Python `str.strip()` on a character list. -/
def pyStripChars (l : List Char) : List Char :=
  ((l.dropWhile pyIsWS).reverse.dropWhile pyIsWS).reverse

/-- Python `str.strip()`. -/
def pyStrip (s : String) : String :=
  String.mk (pyStripChars s.toList)

/-- Python `str.upper()` restricted to ASCII (regulation marks are ASCII letters). -/
def pyCharUpper (c : Char) : Char :=
  if 'a' ≤ c ∧ c ≤ 'z' then Char.ofNat (c.toNat - 32) else c

/-- Python `str.upper()`. -/
def pyUpper (s : String) : String :=
  String.mk (s.toList.map pyCharUpper)

/-! ### effects.normalize_text

Embedding of `normalize_text` (src/src/card_db/effects.py, also imported by
ptcg_tw/scraper.py as `.effects.normalize_text`):

  `t = text.replace("\r", "\n")`;
  `t = re.sub(r"[ \t]+", " ", t)`;
  `t = re.sub(r"\n{2,}", "\n", t)`;
  `t = t.strip()`; `return t or None`.

A regex substitution replacing every maximal run of characters matching `p`
with the single character `rep` is `collapseRuns`.  For `\n{2,}` a run of
length one is left unchanged, which coincides with collapsing every run to a
single `'\n'`. -/

/-- Tail of `collapseRuns`: `flag` records whether we are inside a run
whose replacement character has already been emitted. -/
def collapseGo (p : Char → Bool) (rep : Char) : Bool → List Char → List Char
  | _, [] => []
  | flag, c :: cs =>
    if p c then
      if flag then collapseGo p rep true cs
      else rep :: collapseGo p rep true cs
    else c :: collapseGo p rep false cs

/-- Replace every maximal nonempty run of characters satisfying `p` by the
single character `rep`. -/
def collapseRuns (p : Char → Bool) (rep : Char) (l : List Char) : List Char :=
  collapseGo p rep false l

/-- Space or tab, the character class of `[ \t]+`. -/
def isSpaceTab (c : Char) : Bool := c == ' ' || c == '\t'

/-- Newline, the character class of `\n{2,}`. -/
def isNL (c : Char) : Bool := c == '\n'

/-- Embedding of `effects.normalize_text`. -/
def normalize_text : Option String → Option String
  | none => none
  | some s =>
    let t1 := s.toList.map (fun c => if c = '\r' then '\n' else c)
    let t2 := collapseRuns isSpaceTab ' ' t1
    let t3 := collapseRuns isNL '\n' t2
    let t4 := pyStripChars t3
    if t4.isEmpty then none else some (String.mk t4)

/-- No two adjacent characters of the list both satisfy `p`. -/
def NoAdjPair (p : Char → Bool) (l : List Char) : Prop :=
  List.Chain' (fun a b => ¬(p a = true ∧ p b = true)) l

example : normalize_text (some "a\n\nb") = some "a\nb" := by decide

example : normalize_text (some "x \t y") = some "x y" := by decide

/-! ### Invariants of collapseRuns -/

theorem collapseGo_nil (p : Char → Bool) (rep : Char) (flag : Bool) :
    collapseGo p rep flag [] = [] := by
  cases flag <;> rfl

theorem collapseGo_cons_true_pos (p : Char → Bool) (rep c : Char) (cs : List Char)
    (h : p c = true) : collapseGo p rep true (c :: cs) = collapseGo p rep true cs := by
  simp [collapseGo, h]

theorem collapseGo_cons_false_pos (p : Char → Bool) (rep c : Char) (cs : List Char)
    (h : p c = true) : collapseGo p rep false (c :: cs) = rep :: collapseGo p rep true cs := by
  simp [collapseGo, h]

theorem collapseGo_cons_neg (p : Char → Bool) (rep c : Char) (cs : List Char)
    (h : ¬ p c = true) (flag : Bool) :
    collapseGo p rep flag (c :: cs) = c :: collapseGo p rep false cs := by
  cases flag <;> simp [collapseGo, h]

theorem collapseGo_true_head (p : Char → Bool) (rep : Char) :
    ∀ (l : List Char) (c : Char), c ∈ (collapseGo p rep true l).head? → p c = false := by
  intro l
  induction l with
  | nil => simp [collapseGo_nil]
  | cons d ds ih =>
    intro c hc
    by_cases hd : p d = true
    · rw [collapseGo_cons_true_pos p rep d ds hd] at hc
      exact ih c hc
    · rw [collapseGo_cons_neg p rep d ds hd] at hc
      simp only [List.head?_cons, Option.mem_def, Option.some.injEq] at hc
      subst hc
      simpa using hd

theorem collapseGo_false_head (p : Char → Bool) (rep : Char) (l : List Char) (c : Char)
    (hc : c ∈ (collapseGo p rep false l).head?) : c = rep ∨ c ∈ l.head? := by
  cases l with
  | nil => simp [collapseGo_nil] at hc
  | cons d ds =>
    by_cases hd : p d = true
    · rw [collapseGo_cons_false_pos p rep d ds hd] at hc
      simp only [List.head?_cons, Option.mem_def, Option.some.injEq] at hc
      exact Or.inl hc.symm
    · rw [collapseGo_cons_neg p rep d ds hd] at hc
      simp only [List.head?_cons, Option.mem_def] at hc ⊢
      exact Or.inr hc

theorem noAdjPair_collapseGo (p : Char → Bool) (rep : Char) :
    ∀ (l : List Char) (flag : Bool), NoAdjPair p (collapseGo p rep flag l) := by
  intro l
  induction l with
  | nil => intro flag; simp [collapseGo_nil, NoAdjPair]
  | cons d ds ih =>
    intro flag
    by_cases hd : p d = true
    · cases flag with
      | true => rw [collapseGo_cons_true_pos p rep d ds hd]; exact ih true
      | false =>
        rw [collapseGo_cons_false_pos p rep d ds hd]
        rw [NoAdjPair, List.chain'_cons']
        refine ⟨?_, ih true⟩
        intro y hy h
        have := collapseGo_true_head p rep ds y hy
        rw [this] at h
        exact absurd h.2 (by simp)
    · rw [collapseGo_cons_neg p rep d ds hd flag]
      rw [NoAdjPair, List.chain'_cons']
      refine ⟨?_, ih false⟩
      intro y hy h
      exact hd h.1

theorem noAdjPair_collapseGo_preserved (p q : Char → Bool) (rep : Char) (hrep : q rep = false) :
    ∀ (l : List Char) (flag : Bool), NoAdjPair q l → NoAdjPair q (collapseGo p rep flag l) := by
  intro l
  induction l with
  | nil => intro flag _; simp [collapseGo_nil, NoAdjPair]
  | cons d ds ih =>
    intro flag hl
    have hds : NoAdjPair q ds := List.Chain'.tail hl
    by_cases hd : p d = true
    · cases flag with
      | true => rw [collapseGo_cons_true_pos p rep d ds hd]; exact ih true hds
      | false =>
        rw [collapseGo_cons_false_pos p rep d ds hd]
        rw [NoAdjPair, List.chain'_cons']
        refine ⟨?_, ih true hds⟩
        intro y hy h
        rw [hrep] at h
        exact absurd h.1 (by simp)
    · rw [collapseGo_cons_neg p rep d ds hd flag]
      rw [NoAdjPair, List.chain'_cons']
      refine ⟨?_, ih false hds⟩
      intro y hy h
      rcases collapseGo_false_head p rep ds y hy with hcase | hcase
      · rw [hcase, hrep] at h
        exact absurd h.2 (by simp)
      · cases ds with
        | nil => simp at hcase
        | cons e es =>
          simp only [List.head?_cons, Option.mem_def, Option.some.injEq] at hcase
          subst hcase
          rw [NoAdjPair, List.chain'_cons'] at hl
          exact hl.1 e (by simp) h

theorem mem_collapseGo (p : Char → Bool) (rep : Char) :
    ∀ (l : List Char) (flag : Bool) (x : Char), x ∈ collapseGo p rep flag l → x ∈ l ∨ x = rep := by
  intro l
  induction l with
  | nil => intro flag x hx; simp [collapseGo_nil] at hx
  | cons d ds ih =>
    intro flag x hx
    by_cases hd : p d = true
    · cases flag with
      | true =>
        rw [collapseGo_cons_true_pos p rep d ds hd] at hx
        rcases ih true x hx with h | h
        · exact Or.inl (List.mem_cons_of_mem _ h)
        · exact Or.inr h
      | false =>
        rw [collapseGo_cons_false_pos p rep d ds hd] at hx
        rcases List.mem_cons.mp hx with h | h
        · exact Or.inr h
        · rcases ih true x h with h2 | h2
          · exact Or.inl (List.mem_cons_of_mem _ h2)
          · exact Or.inr h2
    · rw [collapseGo_cons_neg p rep d ds hd flag] at hx
      rcases List.mem_cons.mp hx with h | h
      · exact Or.inl (by simp [h])
      · rcases ih false x h with h2 | h2
        · exact Or.inl (List.mem_cons_of_mem _ h2)
        · exact Or.inr h2

theorem noAdjPair_of_suffix (p : Char → Bool) (l₁ l₂ : List Char)
    (hs : l₁ <:+ l₂) (h : NoAdjPair p l₂) : NoAdjPair p l₁ := by
  obtain ⟨t, ht⟩ := hs
  subst ht
  exact (List.chain'_append.mp h).2.1

theorem noAdjPair_reverse (p : Char → Bool) (l : List Char)
    (h : NoAdjPair p l) : NoAdjPair p l.reverse := by
  rw [NoAdjPair, List.chain'_reverse]
  exact List.Chain'.imp (fun a b hab h2 => hab ⟨h2.2, h2.1⟩) h

theorem noAdjPair_pyStripChars (p : Char → Bool) (l : List Char)
    (h : NoAdjPair p l) : NoAdjPair p (pyStripChars l) := by
  rw [pyStripChars]
  apply noAdjPair_reverse
  apply noAdjPair_of_suffix p _ _ (List.dropWhile_suffix pyIsWS)
  apply noAdjPair_reverse
  exact noAdjPair_of_suffix p _ _ (List.dropWhile_suffix pyIsWS) h

theorem mem_pyStripChars (l : List Char) (x : Char) (hx : x ∈ pyStripChars l) : x ∈ l := by
  rw [pyStripChars] at hx
  rw [List.mem_reverse] at hx
  have hx2 := (List.dropWhile_suffix pyIsWS).subset hx
  rw [List.mem_reverse] at hx2
  exact (List.dropWhile_suffix pyIsWS).subset hx2

/-! ### Claim C8 -/

/-- C8, counterexample. The claim says runs of blank lines are collapsed to one
blank line; on input "a\n\nb" (one blank line, which the claim would keep
intact) the code returns "a\nb" with the blank line removed, because
`re.sub(r"\n\x7b2,\x7d", "\n", t)` rewrites every newline run to a single
newline. -/
theorem C8_blank_line_counterexample :
    normalize_text (some "a\n\nb") = some "a\nb" ∧ ("a\nb" : String) ≠ "a\n\nb" := by
  constructor
  · decide
  · decide

/-- C8, amended: for every input text, `normalize_text` replaces every
carriage return by a newline, collapses every run of spaces and tabs to a
single space, and collapses every run of two or more newlines to a single
newline (so no blank line survives); consequently any produced output
contains no carriage return, no two adjacent space-or-tab characters, and
no two adjacent newlines. -/
theorem C8_normalize_text_amended (s t : String)
    (h : normalize_text (some s) = some t) :
    (∀ c ∈ t.toList, c ≠ '\r') ∧ NoAdjPair isSpaceTab t.toList ∧ NoAdjPair isNL t.toList := by
  rw [normalize_text] at h
  set t1 := s.toList.map (fun c => if c = '\r' then '\n' else c) with ht1
  set t2 := collapseRuns isSpaceTab ' ' t1 with ht2
  set t3 := collapseRuns isNL '\n' t2 with ht3
  set t4 := pyStripChars t3 with ht4
  by_cases he : t4.isEmpty
  · simp [he] at h
  · simp only [he, Bool.false_eq_true, if_neg, not_false_iff, Option.some.injEq] at h
    have htl : t.toList = t4 := by rw [← h]; rfl
    refine ⟨?_, ?_, ?_⟩
    · intro c hc
      rw [htl] at hc
      have hc3 : c ∈ t3 := mem_pyStripChars t3 c hc
      rcases mem_collapseGo isNL '\n' t2 false c hc3 with hc2 | hrep
      · rcases mem_collapseGo isSpaceTab ' ' t1 false c hc2 with hc1 | hrep
        · rw [ht1] at hc1
          rcases List.mem_map.mp hc1 with ⟨d, _, hd⟩
          intro hcr
          rw [hcr] at hd
          by_cases hdr : d = '\r'
          · rw [if_pos hdr] at hd
            exact absurd hd (by decide)
          · rw [if_neg hdr] at hd
            exact hdr hd
        · rw [hrep]; decide
      · rw [hrep]; decide
    · rw [htl, ht4]
      apply noAdjPair_pyStripChars
      rw [ht3, collapseRuns]
      exact noAdjPair_collapseGo_preserved isNL isSpaceTab '\n' (by decide) t2 false
        (noAdjPair_collapseGo isSpaceTab ' ' t1 false)
    · rw [htl, ht4]
      apply noAdjPair_pyStripChars
      rw [ht3, collapseRuns]
      exact noAdjPair_collapseGo isNL '\n' t2 false

/-- C8 witness: the amended theorem applied at the concrete input
"a \t b\r\rc", whose normalized form is "a b\nc". -/
theorem C8_normalize_text_amended_witness :
    (∀ c ∈ ("a b\nc" : String).toList, c ≠ '\r') ∧
      NoAdjPair isSpaceTab ("a b\nc" : String).toList ∧
      NoAdjPair isNL ("a b\nc" : String).toList :=
  C8_normalize_text_amended "a \t b\r\rc" "a b\nc" (by decide)

/-! ### scraper._request_with_retry

Embedding of `_request_with_retry` (ptcg_tw/scraper.py).  An attempt either
raises a network error or returns a response with a status code; the
environment is a function from attempt number to that outcome.  The Python
loop is `for attempt in range(max(1, int(retries)))`; inside it:

  * status in `_RETRY_STATUS = \x7b429, 500, 502, 503, 504\x7d`: on the last
    allowed attempt `resp.raise_for_status()` raises `HTTPError` (all retry
    statuses are ≥ 400), which the `except` clause catches and re-raises;
    otherwise sleep `backoff * 2 ** attempt` and continue;
  * any other status ≥ 400: `resp.raise_for_status()` raises `HTTPError`,
    which IS caught by `except (requests.RequestException, OSError)` since
    `HTTPError` subclasses `RequestException`; the handler re-raises on the
    last allowed attempt and otherwise sleeps and continues — so a plain
    4xx is retried exactly like a transient status;
  * status < 400: the response is returned;
  * network error: re-raise on the last allowed attempt, else sleep and
    continue.

The trace records the number of outbound attempts, the back-off sleeps in
order, and the final outcome. -/

def RETRY_STATUS : List Nat := [429, 500, 502, 503, 504]

inductive AttemptOutcome where
  | netErr
  | status (code : Nat)

inductive ReqOutcome where
  | ok (code : Nat)
  | httpError (code : Nat)
  | netError
  | exhausted
deriving DecidableEq

structure RetryTrace where
  attempts : Nat
  sleeps : List ℚ
  outcome : ReqOutcome
deriving DecidableEq

def retryLoop (resp : Nat → AttemptOutcome) (retries : Nat) (backoff : ℚ) :
    Nat → Nat → RetryTrace
  | _, 0 => ⟨0, [], .exhausted⟩
  | attempt, fuel + 1 =>
    match resp attempt with
    | .status c =>
      if c ∈ RETRY_STATUS then
        if (retries : ℤ) - 1 ≤ (attempt : ℤ) then ⟨1, [], .httpError c⟩
        else
          let r := retryLoop resp retries backoff (attempt + 1) fuel
          ⟨r.attempts + 1, backoff * 2 ^ attempt :: r.sleeps, r.outcome⟩
      else if 400 ≤ c then
        if (retries : ℤ) - 1 ≤ (attempt : ℤ) then ⟨1, [], .httpError c⟩
        else
          let r := retryLoop resp retries backoff (attempt + 1) fuel
          ⟨r.attempts + 1, backoff * 2 ^ attempt :: r.sleeps, r.outcome⟩
      else ⟨1, [], .ok c⟩
    | .netErr =>
      if (retries : ℤ) - 1 ≤ (attempt : ℤ) then ⟨1, [], .netError⟩
      else
        let r := retryLoop resp retries backoff (attempt + 1) fuel
        ⟨r.attempts + 1, backoff * 2 ^ attempt :: r.sleeps, r.outcome⟩

/-- Embedding of `_request_with_retry`: run the loop from attempt 0 with
`max 1 retries` iterations, as `range(max(1, int(retries)))` does. -/
def request_with_retry (resp : Nat → AttemptOutcome) (retries : Nat) (backoff : ℚ) :
    RetryTrace :=
  retryLoop resp retries backoff 0 (max 1 retries)

theorem retryLoop_spec (resp : Nat → AttemptOutcome) (retries : Nat) (backoff : ℚ) :
    ∀ (fuel attempt : Nat), 1 ≤ fuel → attempt + fuel = max 1 retries →
      1 ≤ (retryLoop resp retries backoff attempt fuel).attempts ∧
        (retryLoop resp retries backoff attempt fuel).attempts ≤ fuel ∧
        (retryLoop resp retries backoff attempt fuel).sleeps =
          (List.range' attempt ((retryLoop resp retries backoff attempt fuel).attempts - 1)).map
            (fun k => backoff * 2 ^ k) := by
  intro fuel
  induction fuel with
  | zero => intro attempt h; omega
  | succ n ih =>
    intro attempt _ hfa
    have hcont : ∀ h : ¬ ((retries : ℤ) - 1 ≤ (attempt : ℤ)),
        1 ≤ (retryLoop resp retries backoff (attempt + 1) n).attempts ∧
          (retryLoop resp retries backoff (attempt + 1) n).attempts ≤ n ∧
          (retryLoop resp retries backoff (attempt + 1) n).sleeps =
            (List.range' (attempt + 1)
              ((retryLoop resp retries backoff (attempt + 1) n).attempts - 1)).map
              (fun k => backoff * 2 ^ k) := by
      intro h
      apply ih
      · omega
      · omega
    rcases hresp : resp attempt with _ | c
    · by_cases hlast : (retries : ℤ) - 1 ≤ (attempt : ℤ)
      · simp [retryLoop, hresp, hlast]
      · obtain ⟨h1, h2, h3⟩ := hcont hlast
        simp only [retryLoop, hresp, hlast, if_neg, not_false_iff]
        refine ⟨by omega, by omega, ?_⟩
        have : (retryLoop resp retries backoff (attempt + 1) n).attempts - 1 + 1 =
            (retryLoop resp retries backoff (attempt + 1) n).attempts := by omega
        rw [h3, Nat.add_sub_cancel, ← this, List.range'_succ, List.map_cons, Nat.add_sub_cancel]
    · by_cases hretry : c ∈ RETRY_STATUS
      · by_cases hlast : (retries : ℤ) - 1 ≤ (attempt : ℤ)
        · simp [retryLoop, hresp, hretry, hlast]
        · obtain ⟨h1, h2, h3⟩ := hcont hlast
          simp only [retryLoop, hresp, hretry, hlast, if_true, if_neg, not_false_iff]
          refine ⟨by omega, by omega, ?_⟩
          have : (retryLoop resp retries backoff (attempt + 1) n).attempts - 1 + 1 =
              (retryLoop resp retries backoff (attempt + 1) n).attempts := by omega
          rw [h3, Nat.add_sub_cancel, ← this, List.range'_succ, List.map_cons, Nat.add_sub_cancel]
      · by_cases h400 : 400 ≤ c
        · by_cases hlast : (retries : ℤ) - 1 ≤ (attempt : ℤ)
          · simp [retryLoop, hresp, hretry, h400, hlast]
          · obtain ⟨h1, h2, h3⟩ := hcont hlast
            simp only [retryLoop, hresp, hretry, h400, hlast, if_true, if_neg, not_false_iff]
            refine ⟨by omega, by omega, ?_⟩
            have : (retryLoop resp retries backoff (attempt + 1) n).attempts - 1 + 1 =
                (retryLoop resp retries backoff (attempt + 1) n).attempts := by omega
            rw [h3, Nat.add_sub_cancel, ← this, List.range'_succ, List.map_cons, Nat.add_sub_cancel]
        · simp [retryLoop, hresp, hretry, h400]

/-! ### Claims C2 and C4 -/

/-- C2: evaluation of the retry wrapper at a request whose every attempt
returns status 404 (a 4xx outside the retry set), with the default
`retries = 3` and `backoff = 1`.  The code makes three outbound attempts
and sleeps 1 s and 2 s before raising, because the `HTTPError` raised by
`resp.raise_for_status()` is a `RequestException` and is caught by the
`except (requests.RequestException, OSError)` clause; the claim says the
first such response raises with no further attempts and no sleep. -/
theorem C2_client_error_is_retried :
    request_with_retry (fun _ => .status 404) 3 1 =
      ⟨3, [1, 2], .httpError 404⟩ := by
  norm_num [request_with_retry, retryLoop, RETRY_STATUS]

/-- C4, counterexample: with `retries = 0` the loop is
`range(max(1, 0)) = range(1)`, so one outbound attempt is made, exceeding
the claimed bound of `retries = 0` attempts. -/
theorem C4_retries_zero_counterexample :
    (request_with_retry (fun _ => .status 503) 0 1).attempts = 1 ∧
      ¬ ((request_with_retry (fun _ => .status 503) 0 1).attempts ≤ 0) := by
  constructor
  · decide
  · decide

/-- C4, amended: the wrapper makes at most `max 1 retries` outbound attempts
(hence at most `retries` whenever `retries ≥ 1`, and in particular at most 3
by default); the sleeps performed are exactly `backoff * 2 ^ k` for each
non-final attempt `k` in order; and a 200 response after two transient 503s
yields exactly 3 attempts, sleeps `backoff` and `2 * backoff`, and a single
successful result. -/
theorem C4_retry_budget_amended (resp : Nat → AttemptOutcome) (retries : Nat) (backoff : ℚ) :
    (request_with_retry resp retries backoff).attempts ≤ max 1 retries ∧
      (request_with_retry resp retries backoff).sleeps =
        (List.range ((request_with_retry resp retries backoff).attempts - 1)).map
          (fun k => backoff * 2 ^ k) ∧
      request_with_retry (fun k => if k < 2 then .status 503 else .status 200) 3 backoff =
        ⟨3, [backoff, backoff * 2], .ok 200⟩ := by
  obtain ⟨h1, h2, h3⟩ := retryLoop_spec resp retries backoff (max 1 retries) 0
    (le_max_left 1 retries) (by omega)
  refine ⟨h2, ?_, ?_⟩
  · show (retryLoop resp retries backoff 0 (max 1 retries)).sleeps = _
    rw [h3, List.range_eq_range']
    rfl
  · show retryLoop _ 3 backoff 0 3 = _
    norm_num [retryLoop, RETRY_STATUS]

/-! ### scraper.fetch_detail_html -/

/-- Base list path of the upstream site (`LIST_PATH` in scraper.py). -/
def LIST_PATH : String := "/tw/card-search/list/"

/-- Python `s.rstrip("/")`. -/
def rstripSlash (s : String) : String :=
  String.mk (s.toList.reverse.dropWhile (fun c => c == '/')).reverse

/-- Python `a.endswith(b)`. -/
def pyEndsWith (a b : String) : Bool :=
  b.toList.isSuffixOf a.toList

/-- Embedding of the decision made by `fetch_detail_html` after the
redirect-following GET: given the final URL and the response body, it
returns `None` (not found) when
`final_url.rstrip("/").endswith(LIST_PATH.rstrip("/"))`, and the body
otherwise. -/
def fetch_detail_html (finalUrl body : String) : Option String :=
  if pyEndsWith (rstripSlash finalUrl) (rstripSlash LIST_PATH) then none else some body

/-! ### Claim C7 -/

/-- C7, counterexample: for the full final URL
"https://asia.pokemon-card.com/tw/card-search/list/" the code signals
not-found (the trimmed URL ends with the trimmed list path), yet the
trimmed final URL does not EQUAL the trimmed list path, so the claimed
iff ("returns None iff final URL trimmed of trailing slash equals the
list path trimmed of trailing slash") fails at this input. -/
theorem C7_endswith_counterexample :
    fetch_detail_html "https://asia.pokemon-card.com/tw/card-search/list/" "page" = none ∧
      rstripSlash "https://asia.pokemon-card.com/tw/card-search/list/" ≠
        rstripSlash LIST_PATH := by
  constructor
  · decide
  · decide

/-- C7, amended: the detail fetch returns `None` (not found) iff the final
URL trimmed of trailing slashes ENDS WITH the list path trimmed of trailing
slashes; in every other case it returns the response body. -/
theorem C7_not_found_amended (finalUrl body : String) :
    (fetch_detail_html finalUrl body = none ↔
        (rstripSlash LIST_PATH).toList <:+ (rstripSlash finalUrl).toList) ∧
      (fetch_detail_html finalUrl body = none ∨
        fetch_detail_html finalUrl body = some body) := by
  rw [fetch_detail_html, pyEndsWith]
  by_cases h : (rstripSlash LIST_PATH).toList.isSuffixOf (rstripSlash finalUrl).toList
  · rw [if_pos h]
    exact ⟨⟨fun _ => List.isSuffixOf_iff_suffix.mp h, fun _ => rfl⟩, Or.inl rfl⟩
  · rw [if_neg h]
    refine ⟨⟨fun hn => absurd hn (by simp), fun hs => absurd (List.isSuffixOf_iff_suffix.mpr hs) h⟩,
      Or.inr rfl⟩

/-! ### scraper.RateLimiter

Embedding of `RateLimiter.wait` in an idealized time model.  The mutex in
`wait` serializes concurrent callers, so a run is a sequence of calls; each
call observes a monotonic clock value `now` (arbitrary), and `time.sleep`
is modeled as exact.  `__init__` stores `max(0, min_interval)` and starts
with `next_ok_at = 0`.  For `T > 0` the body is: under the lock, if
`now < next_ok_at` sleep `next_ok_at - now` (completing at `next_ok_at`),
then set `next_ok_at = max(next_ok_at, now) + T`; the completion time is
therefore `max next_ok_at now`.  For `T ≤ 0` the call returns immediately
without touching the state. -/

/-- Completion time and updated `next_ok_at` of one `wait()` call. -/
def waitStep (T next_ok now : ℚ) : ℚ × ℚ :=
  if T ≤ 0 then (now, next_ok)
  else (max next_ok now, max next_ok now + T)

/-- Completion times of a serialized sequence of `wait()` calls whose lock
acquisition times are `nows`, starting from state `next_ok`. -/
def waitTimes (T : ℚ) : ℚ → List ℚ → List ℚ
  | _, [] => []
  | next_ok, now :: rest =>
    (waitStep T next_ok now).1 :: waitTimes T (waitStep T next_ok now).2 rest

theorem waitTimes_chain (T : ℚ) (hT : 0 < T) :
    ∀ (nows : List ℚ) (next_ok : ℚ),
      List.Chain' (fun a b => a + T ≤ b) (waitTimes T next_ok nows) ∧
        (∀ x ∈ (waitTimes T next_ok nows).head?, next_ok ≤ x) := by
  intro nows
  induction nows with
  | nil => intro next_ok; simp [waitTimes]
  | cons now rest ih =>
    intro next_ok
    have hTle : ¬ T ≤ 0 := not_le.mpr hT
    have hstep : waitStep T next_ok now = (max next_ok now, max next_ok now + T) := by
      rw [waitStep, if_neg hTle]
    constructor
    · rw [waitTimes, List.chain'_cons']
      refine ⟨?_, (ih _).1⟩
      intro y hy
      have := (ih (waitStep T next_ok now).2).2 y hy
      rw [hstep] at this ⊢
      simpa using this
    · intro x hx
      rw [waitTimes] at hx
      simp only [List.head?_cons, Option.mem_def, Option.some.injEq] at hx
      rw [← hx, hstep]
      exact le_max_left _ _

/-! ### Claim C5 -/

/-- C5: in the serialized, exact-sleep time model of `RateLimiter`, with
`min_interval = T > 0` consecutive completion times of `wait()` calls are
at least `T` apart (for every sequence of clock readings, starting from the
initial state `next_ok_at = 0`); each call sets the next-ok time to its own
completion time plus `T`; and with `min_interval = 0` a call is a no-op:
it completes immediately at `now` and leaves the state unchanged. -/
theorem C5_rate_limiter_spacing (T next_ok now : ℚ) (nows : List ℚ) :
    (0 < T → List.Chain' (fun a b => a + T ≤ b) (waitTimes T 0 nows)) ∧
      (0 < T → (waitStep T next_ok now).2 = (waitStep T next_ok now).1 + T) ∧
      (T = 0 → waitStep T next_ok now = (now, next_ok)) := by
  refine ⟨fun hT => (waitTimes_chain T hT nows 0).1, fun hT => ?_, fun hT => ?_⟩
  · rw [waitStep, if_neg (not_le.mpr hT)]
  · rw [waitStep, if_pos (le_of_eq hT)]

/-- C5 witness: the spacing theorem applied with `T = 1` to three calls all
arriving at clock time 0, and the no-op clause applied with `T = 0`. -/
theorem C5_rate_limiter_spacing_witness :
    List.Chain' (fun a b => a + 1 ≤ b) (waitTimes 1 0 [0, 0, 0]) ∧
      waitStep 0 5 2 = (2, 5) :=
  ⟨(C5_rate_limiter_spacing 1 5 2 [0, 0, 0]).1 one_pos,
   (C5_rate_limiter_spacing 0 5 2 []).2.2 rfl⟩

/-! ### Discovery

Embedding of `extract_card_ids_from_list_html` (scraper.py) and
`_discover_card_ids` (ptcg_tw/__main__.py).  The regex
`/tw/card-search/detail/(\d+)/` applied to a page body yields a list of
matches; a page is abstracted by its match list (for
`extract_card_ids_from_list_html`) or by its already-extracted per-page id
list `f page` (for the discovery driver).  Python dicts preserve insertion
order and keep the original position of a key on re-insertion, so both
`unique[cid] = None` loops are order-preserving de-duplication, `pydedup`.

The parallel branch stores each completed page's ids in `results[page_no]`
in completion order and then drains `sorted(results.keys())`; a run of the
pool is abstracted by the completion order, a permutation of the submitted
pages. -/

/-- Insertion-ordered de-duplication through a Python dict. -/
def pydedup (l : List Nat) : List Nat :=
  l.foldl (fun acc x => if x ∈ acc then acc else acc ++ [x]) []

/-- Embedding of `extract_card_ids_from_list_html`, abstracting the page
body by the ordered list of regex matches on it. -/
def extract_card_ids_from_list_html (ms : List Nat) : List Nat :=
  pydedup ms

/-- Modelled from the spec's words: the subsequence of first occurrences,
in first-occurrence order ("preserve first-occurrence order and
de-duplicate"). -/
def specFirstOccur : List Nat → List Nat
  | [] => []
  | x :: xs => x :: specFirstOccur (xs.filter (fun y => y ≠ x))
termination_by l => l.length
decreasing_by
  simp only [List.length_cons]
  exact Nat.lt_succ_of_le (List.length_filter_le _ _)

theorem specFirstOccur_nil : specFirstOccur [] = [] := by
  simp [specFirstOccur]

theorem specFirstOccur_cons (x : Nat) (xs : List Nat) :
    specFirstOccur (x :: xs) = x :: specFirstOccur (xs.filter (fun y => y ≠ x)) := by
  simp [specFirstOccur]

/-- Python dict assignment `d[k] = v` on an insertion-ordered
association list. -/
def dictInsert (d : List (Nat × List Nat)) (k : Nat) (v : List Nat) :
    List (Nat × List Nat) :=
  if (d.map Prod.fst).contains k then
    d.map (fun e => if e.1 = k then (k, v) else e)
  else d ++ [(k, v)]

/-- Python dict read `d[k]`. -/
def dictLookup (d : List (Nat × List Nat)) (k : Nat) : Option (List Nat) :=
  (d.find? (fun e => e.1 == k)).map Prod.snd

/-- Dict of page results accumulated in the order page fetches complete. -/
def buildResults (f : Nat → List Nat) (order : List Nat) : List (Nat × List Nat) :=
  order.foldl (fun d p => dictInsert d p (f p)) []

/-- Pages fetched after page 1: `range(2 if start_page == 1 else start_page,
end_page + 1)`. -/
def pagesToFetch (start_page end_page : Nat) : List Nat :=
  let first := if start_page = 1 then 2 else start_page
  List.range' first (end_page + 1 - first)

/-- Sequential branch of `_discover_card_ids`: page 1's ids (only when
`start_page == 1`), then each page's ids in page order, then global
de-duplication. -/
def discoverSeq (page1_ids : List Nat) (f : Nat → List Nat)
    (start_page end_page : Nat) : List Nat :=
  pydedup ((if start_page = 1 then page1_ids else []) ++
    ((pagesToFetch start_page end_page).map f).flatten)

/-- Parallel branch of `_discover_card_ids`: page results land in a dict in
completion order, and are drained over `sorted(results.keys())`. -/
def discoverPar (page1_ids : List Nat) (f : Nat → List Nat)
    (start_page : Nat) (order : List Nat) : List Nat :=
  let results := buildResults f order
  let keys := List.insertionSort (· ≤ ·) (results.map Prod.fst)
  pydedup ((if start_page = 1 then page1_ids else []) ++
    (keys.map (fun p => (dictLookup results p).getD [])).flatten)

/-! ### Discovery lemmas -/

theorem pydedup_go (xs : List Nat) : ∀ acc : List Nat,
    xs.foldl (fun acc x => if x ∈ acc then acc else acc ++ [x]) acc =
      acc ++ specFirstOccur (xs.filter (fun y => y ∉ acc)) := by
  induction xs with
  | nil => intro acc; simp [specFirstOccur_nil]
  | cons x xs ih =>
    intro acc
    by_cases hx : x ∈ acc
    · rw [List.foldl_cons, if_pos hx, ih]
      congr 2
      rw [List.filter_cons]
      simp [hx]
    · rw [List.foldl_cons, if_neg hx, ih, List.append_assoc]
      congr 1
      rw [List.filter_cons, if_pos (by simp [hx]), specFirstOccur_cons,
        List.filter_filter, List.singleton_append]
      congr 1
      congr 1
      apply List.filter_congr
      intro y _
      by_cases hyx : y = x
      · simp [hyx]
      · by_cases hya : y ∈ acc <;> simp [hyx, hya]

theorem pydedup_eq_specFirstOccur (l : List Nat) : pydedup l = specFirstOccur l := by
  rw [pydedup, pydedup_go, List.nil_append]
  congr 1
  apply List.filter_eq_self.mpr
  intro a _
  simp

theorem mem_specFirstOccur : ∀ (l : List Nat) (x : Nat), x ∈ specFirstOccur l → x ∈ l := by
  intro l
  induction l using specFirstOccur.induct with
  | case1 => simp [specFirstOccur_nil]
  | case2 x xs ih =>
    intro y hy
    rw [specFirstOccur_cons] at hy
    rcases List.mem_cons.mp hy with h | h
    · simp [h]
    · exact List.mem_cons_of_mem _ (List.mem_of_mem_filter (ih y h))

theorem nodup_specFirstOccur : ∀ l : List Nat, (specFirstOccur l).Nodup := by
  intro l
  induction l using specFirstOccur.induct with
  | case1 => simp [specFirstOccur_nil]
  | case2 x xs ih =>
    rw [specFirstOccur_cons, List.nodup_cons]
    refine ⟨?_, ih⟩
    intro hx
    have := List.of_mem_filter (mem_specFirstOccur _ x hx)
    simp at this

theorem buildResults_go (f : Nat → List Nat) :
    ∀ (order : List Nat) (d : List (Nat × List Nat)),
      order.Nodup → (∀ p ∈ order, p ∉ d.map Prod.fst) →
      ((order.foldl (fun d p => dictInsert d p (f p)) d).map Prod.fst =
          d.map Prod.fst ++ order) ∧
        (∀ k, dictLookup (order.foldl (fun d p => dictInsert d p (f p)) d) k =
          if k ∈ order then some (f k) else dictLookup d k) := by
  intro order
  induction order with
  | nil =>
    intro d _ _
    refine ⟨by simp, fun k => ?_⟩
    simp
  | cons p rest ih =>
    intro d hnd hdis
    have hpd : p ∉ d.map Prod.fst := hdis p (by simp)
    have hins : dictInsert d p (f p) = d ++ [(p, f p)] := by
      rw [dictInsert, if_neg]
      simpa using hpd
    have hprest : p ∉ rest := (List.nodup_cons.mp hnd).1
    have hkeys' : (dictInsert d p (f p)).map Prod.fst = d.map Prod.fst ++ [p] := by
      rw [hins, List.map_append]
      rfl
    have hdis' : ∀ q ∈ rest, q ∉ (dictInsert d p (f p)).map Prod.fst := by
      intro q hq
      rw [hkeys', List.mem_append]
      rintro (h | h)
      · exact hdis q (List.mem_cons_of_mem _ hq) h
      · rw [List.mem_singleton] at h
        exact hprest (h ▸ hq)
    obtain ⟨ihk, ihl⟩ := ih (dictInsert d p (f p)) (List.nodup_cons.mp hnd).2 hdis'
    constructor
    · rw [List.foldl_cons, ihk, hkeys', List.append_assoc, List.singleton_append]
    · intro k
      rw [List.foldl_cons, ihl k]
      by_cases hk : k ∈ rest
      · rw [if_pos hk, if_pos (List.mem_cons_of_mem _ hk)]
      · rw [if_neg hk]
        by_cases hkp : k = p
        · subst hkp
          rw [if_pos (List.mem_cons_self _ _)]
          rw [hins, dictLookup, List.find?_append]
          have h1 : d.find? (fun e => e.1 == k) = none := by
            apply List.find?_eq_none.mpr
            intro e he hbeq
            apply hpd
            have hek : e.1 = k := by simpa using hbeq
            rw [← hek]
            exact List.mem_map_of_mem Prod.fst he
          rw [h1]
          simp [Option.or]
        · have hknot : k ∉ p :: rest := by simp [hk, hkp]
          rw [if_neg hknot, hins, dictLookup, List.find?_append]
          have h2 : [(p, f p)].find? (fun e => e.1 == k) = none := by
            apply List.find?_eq_none.mpr
            intro e he hbeq
            rw [List.mem_singleton] at he
            rw [he] at hbeq
            have hpk : p = k := by simpa using hbeq
            exact hkp hpk.symm
          rw [h2, dictLookup]
          cases d.find? (fun e => e.1 == k) <;> simp [Option.or]

theorem buildResults_keys (f : Nat → List Nat) (order : List Nat) (h : order.Nodup) :
    (buildResults f order).map Prod.fst = order := by
  have := (buildResults_go f order [] h (by simp)).1
  simpa [buildResults] using this

theorem buildResults_lookup (f : Nat → List Nat) (order : List Nat) (h : order.Nodup)
    (k : Nat) (hk : k ∈ order) : dictLookup (buildResults f order) k = some (f k) := by
  have := (buildResults_go f order [] h (by simp)).2 k
  rw [buildResults]
  rw [this, if_pos hk]

theorem sorted_pagesToFetch (sp ep : Nat) :
    List.Sorted (· ≤ ·) (pagesToFetch sp ep) := by
  show List.Sorted (· ≤ ·) (List.range' _ _)
  exact List.Pairwise.imp le_of_lt (List.pairwise_lt_range' _ _)

theorem nodup_pagesToFetch (sp ep : Nat) : (pagesToFetch sp ep).Nodup := by
  show (List.range' _ _).Nodup
  exact List.nodup_range' _ _

/-! ### Claim C3 -/

/-- C3: for every discovery run, for every completion order of the parallel
page fetches (any permutation of the submitted pages), the parallel result
equals the sequential one, because page ids are drained over
`sorted(results.keys())`; and the discovered id list is duplicate-free with
order equal to first-occurrence order across page 1, page 2, …, end. -/
theorem C3_discovery_dedup_order_parallel (page1_ids : List Nat) (f : Nat → List Nat)
    (start_page end_page : Nat) (order : List Nat)
    (hperm : order.Perm (pagesToFetch start_page end_page)) :
    discoverPar page1_ids f start_page order =
        discoverSeq page1_ids f start_page end_page ∧
      (discoverSeq page1_ids f start_page end_page).Nodup ∧
      discoverSeq page1_ids f start_page end_page =
        specFirstOccur ((if start_page = 1 then page1_ids else []) ++
          ((pagesToFetch start_page end_page).map f).flatten) := by
  have hnodup_pages : (pagesToFetch start_page end_page).Nodup :=
    nodup_pagesToFetch _ _
  have hnodup_order : order.Nodup := hperm.nodup_iff.mpr hnodup_pages
  have hkeys : (buildResults f order).map Prod.fst = order :=
    buildResults_keys f order hnodup_order
  have hsortkeys :
      List.insertionSort (· ≤ ·) ((buildResults f order).map Prod.fst) =
        pagesToFetch start_page end_page := by
    rw [hkeys]
    exact List.eq_of_perm_of_sorted
      ((List.perm_insertionSort _ order).trans hperm)
      (List.sorted_insertionSort _ order) (sorted_pagesToFetch _ _)
  have hmap :
      (pagesToFetch start_page end_page).map
          (fun p => (dictLookup (buildResults f order) p).getD []) =
        (pagesToFetch start_page end_page).map f := by
    apply List.map_eq_map_iff.mpr
    intro p hp
    rw [buildResults_lookup f order hnodup_order p (hperm.mem_iff.mpr hp)]
    rfl
  refine ⟨?_, ?_, ?_⟩
  · simp only [discoverPar, discoverSeq]
    rw [hsortkeys, hmap]
  · rw [discoverSeq, pydedup_eq_specFirstOccur]
    exact nodup_specFirstOccur _
  · rw [discoverSeq, pydedup_eq_specFirstOccur]

/-- C3 witness: two list pages after page 1, completing out of order
(page 3 before page 2), with overlapping ids across pages. -/
theorem C3_discovery_witness :
    discoverPar [5, 7] (fun p => [p, 5]) 1 [3, 2] =
        discoverSeq [5, 7] (fun p => [p, 5]) 1 3 ∧
      (discoverSeq [5, 7] (fun p => [p, 5]) 1 3).Nodup ∧
      discoverSeq [5, 7] (fun p => [p, 5]) 1 3 =
        specFirstOccur ((if (1 : Nat) = 1 then [5, 7] else []) ++
          ((pagesToFetch 1 3).map (fun p => [p, 5])).flatten) :=
  C3_discovery_dedup_order_parallel [5, 7] (fun p => [p, 5]) 1 3 [3, 2] (by decide)

/-! ### db.py: schema, Skill dataclass, upsert_card

Embedding of the persistence layer.  `cards` is keyed by the primary key
`card_id`, so the table is a map from id to row; `skills` is an ordered
list of `(skill_id, row)` pairs with an AUTOINCREMENT counter
`nextSkillId`.  `card_row` in `upsert_card` binds
`card.get("name") or ""` and `card.get("source_url") or ""` (the Python
string-or idiom, `pyOr`), `card.get("fetched_at") or _utc_now_iso()`
(the `now` argument), and `raw_json = json.dumps(card, ...)`; `json.dumps`
is deterministic and injective on these records, so `raw_json` is modeled
by the record itself.  `cost_json` and `instructions_json` are
`json.dumps` of string arrays — a JSON array round-trips its order — so
they are modeled by the lists themselves.

`upsert_card` runs in one transaction: INSERT .. ON CONFLICT(card_id) DO
UPDATE replacing every field, then DELETE FROM skills WHERE card_id = ?,
then INSERT the new skill rows in list (idx) order. -/

/-- Per-skill projection stored inside the card dict under "skills". -/
structure RawSkill where
  idx : Nat
  kind : Option String := none
  name : Option String := none
  cost : List String := []
  damage : Option String := none
  effect : Option String := none
deriving DecidableEq

/-- The `Skill` dataclass of db.py. -/
structure Skill where
  idx : Nat
  kind : Option String := none
  name : Option String := none
  cost : List String := []
  damage : Option String := none
  effect : Option String := none
  effect_text_norm : Option String := none
  instructions : Option (List String) := none
deriving DecidableEq

/-- The card dict produced by `parse_card_detail_html` and consumed by
`upsert_card` (all values optional: `dict.get` returns `None` when the key
is absent). -/
structure CardDict where
  card_id : Nat
  name : Option String := none
  evolve_marker : Option String := none
  card_type : Option String := none
  hp : Option Nat := none
  element_code : Option String := none
  element : Option String := none
  regulation_mark : Option String := none
  collector_number : Option String := none
  expansion_code : Option String := none
  expansion_name : Option String := none
  expansion_symbol_url : Option String := none
  illustrator : Option String := none
  image_url : Option String := none
  weakness_code : Option String := none
  weakness_value : Option String := none
  resistance_code : Option String := none
  resistance_value : Option String := none
  retreat_cost : Option Nat := none
  pokedex_no : Option Nat := none
  height_m : Option ℚ := none
  weight_kg : Option ℚ := none
  description : Option String := none
  source_url : Option String := none
  fetched_at : Option String := none
  skills : List RawSkill := []
deriving DecidableEq

/-- A row of the `cards` table; `name`, `source_url`, `fetched_at` and
`raw_json` are NOT NULL columns. -/
structure CardRow where
  card_id : Nat
  name : String
  evolve_marker : Option String
  card_type : Option String
  hp : Option Nat
  element_code : Option String
  element : Option String
  regulation_mark : Option String
  collector_number : Option String
  expansion_code : Option String
  expansion_name : Option String
  expansion_symbol_url : Option String
  illustrator : Option String
  image_url : Option String
  weakness_code : Option String
  weakness_value : Option String
  resistance_code : Option String
  resistance_value : Option String
  retreat_cost : Option Nat
  pokedex_no : Option Nat
  height_m : Option ℚ
  weight_kg : Option ℚ
  description : Option String
  source_url : String
  fetched_at : String
  raw_json : CardDict
deriving DecidableEq

/-- A row of the `skills` table (without its AUTOINCREMENT `skill_id`,
which is carried alongside in the table model). -/
structure SkillRow where
  card_id : Nat
  idx : Nat
  kind : Option String
  name : Option String
  cost_json : List String
  damage : Option String
  effect : Option String
  effect_text_norm : Option String
  instructions_json : Option (List String)
deriving DecidableEq

/-- `Skill.to_row` of db.py. -/
def Skill.to_row (s : Skill) (card_id : Nat) : SkillRow :=
  { card_id := card_id
    idx := s.idx
    kind := s.kind
    name := s.name
    cost_json := s.cost
    damage := s.damage
    effect := s.effect
    effect_text_norm := s.effect_text_norm
    instructions_json := s.instructions }

/-- The `card_row` dict built inside `upsert_card`. -/
def cardRowOf (card_id : Nat) (card : CardDict) (now : String) : CardRow :=
  { card_id := card_id
    name := pyOr card.name ""
    evolve_marker := card.evolve_marker
    card_type := card.card_type
    hp := card.hp
    element_code := card.element_code
    element := card.element
    regulation_mark := card.regulation_mark
    collector_number := card.collector_number
    expansion_code := card.expansion_code
    expansion_name := card.expansion_name
    expansion_symbol_url := card.expansion_symbol_url
    illustrator := card.illustrator
    image_url := card.image_url
    weakness_code := card.weakness_code
    weakness_value := card.weakness_value
    resistance_code := card.resistance_code
    resistance_value := card.resistance_value
    retreat_cost := card.retreat_cost
    pokedex_no := card.pokedex_no
    height_m := card.height_m
    weight_kg := card.weight_kg
    description := card.description
    source_url := pyOr card.source_url ""
    fetched_at := pyOr card.fetched_at now
    raw_json := card }

/-- The embedded store: `cards` keyed by primary key, `skills` as an
ordered table of `(skill_id, row)`, plus the AUTOINCREMENT counter. -/
structure DBState where
  cards : Nat → Option CardRow
  skills : List (Nat × SkillRow)
  nextSkillId : Nat

/-- A freshly initialized store (`init_db` on a new file). -/
def emptyDB : DBState :=
  { cards := fun _ => none, skills := [], nextSkillId := 1 }

/-- `SELECT * FROM cards WHERE card_id = ?`. -/
def cardsLookup (st : DBState) (cid : Nat) : Option CardRow :=
  st.cards cid

/-- The skill rows of one card, in table order (they are inserted in `idx`
order, so this is also `ORDER BY idx`). -/
def skillsFor (st : DBState) (cid : Nat) : List SkillRow :=
  (st.skills.filter (fun e => e.2.card_id = cid)).map Prod.snd

/-- Embedding of `upsert_card`: replace the card row, delete the card's
skill rows, insert the new ones in order with fresh AUTOINCREMENT ids. -/
def upsert_card (st : DBState) (card_id : Nat) (card : CardDict)
    (skills : List Skill) (now : String) : DBState :=
  let row := cardRowOf card_id card now
  let newRows := skills.map (fun s => Skill.to_row s card_id)
  { cards := fun c => if c = card_id then some row else st.cards c
    skills := st.skills.filter (fun e => ¬ e.2.card_id = card_id) ++
      ((List.range newRows.length).zip newRows).map
        (fun e => (st.nextSkillId + e.1, e.2))
    nextSkillId := st.nextSkillId + newRows.length }

/-! ### Upsert lemmas -/

theorem pyOr_some_empty (s : String) : pyOr (some s) "" = s := by
  rw [pyOr]
  by_cases h : s = ""
  · rw [if_pos h, h]
  · rw [if_neg h]

theorem cardsLookup_upsert (st : DBState) (cid : Nat) (card : CardDict)
    (sks : List Skill) (now : String) (c : Nat) :
    cardsLookup (upsert_card st cid card sks now) c =
      if c = cid then some (cardRowOf cid card now) else cardsLookup st c :=
  rfl

theorem mem_upsert_newEntries (nid cid : Nat) (sks : List Skill) (e : Nat × SkillRow)
    (he : e ∈ ((List.range (sks.map (fun s => Skill.to_row s cid)).length).zip
        (sks.map (fun s => Skill.to_row s cid))).map (fun e => (nid + e.1, e.2))) :
    e.2.card_id = cid := by
  rcases List.mem_map.mp he with ⟨pair, hpair, rfl⟩
  have hsnd := (List.of_mem_zip hpair).2
  rcases List.mem_map.mp hsnd with ⟨s, hs, heq⟩
  show pair.2.card_id = cid
  rw [← heq]
  rfl

theorem upsert_newEntries_map_snd (nid : Nat) (rows : List SkillRow) :
    (((List.range rows.length).zip rows).map
        (fun e => (nid + e.1, e.2))).map Prod.snd = rows := by
  rw [List.map_map]
  have hcomp : (Prod.snd ∘ fun e : Nat × SkillRow => (nid + e.1, e.2)) = Prod.snd := rfl
  rw [hcomp]
  exact List.map_snd_zip _ _ (by simp)

theorem skillsFor_upsert (st : DBState) (cid : Nat) (card : CardDict)
    (sks : List Skill) (now : String) (c : Nat) :
    skillsFor (upsert_card st cid card sks now) c =
      if c = cid then sks.map (fun s => Skill.to_row s cid) else skillsFor st c := by
  simp only [skillsFor, upsert_card, List.filter_append, List.map_append]
  by_cases hc : c = cid
  · subst hc
    have h1 : (st.skills.filter (fun e => ¬ e.2.card_id = c)).filter
        (fun e => e.2.card_id = c) = [] := by
      rw [List.filter_filter]
      apply List.filter_eq_nil_iff.mpr
      intro e _
      by_cases h : e.2.card_id = c <;> simp [h]
    have h2 : (((List.range (sks.map (fun s => Skill.to_row s c)).length).zip
          (sks.map (fun s => Skill.to_row s c))).map
            (fun e => (st.nextSkillId + e.1, e.2))).filter
          (fun e => e.2.card_id = c) =
        ((List.range (sks.map (fun s => Skill.to_row s c)).length).zip
          (sks.map (fun s => Skill.to_row s c))).map
            (fun e => (st.nextSkillId + e.1, e.2)) := by
      apply List.filter_eq_self.mpr
      intro e he
      simpa using mem_upsert_newEntries st.nextSkillId c sks e he
    rw [h1, h2, if_pos rfl, upsert_newEntries_map_snd]
    simp
  · rw [if_neg hc]
    have h1 : (((List.range (sks.map (fun s => Skill.to_row s cid)).length).zip
          (sks.map (fun s => Skill.to_row s cid))).map
            (fun e => (st.nextSkillId + e.1, e.2))).filter
          (fun e => e.2.card_id = c) = [] := by
      apply List.filter_eq_nil_iff.mpr
      intro e he
      have hecid := mem_upsert_newEntries st.nextSkillId cid sks e he
      simp only [decide_eq_true_eq]
      rw [hecid]
      exact fun hcc => hc hcc.symm
    have h2 : (st.skills.filter (fun e => ¬ e.2.card_id = cid)).filter
        (fun e => e.2.card_id = c) = st.skills.filter (fun e => e.2.card_id = c) := by
      rw [List.filter_filter]
      apply List.filter_congr
      intro e _
      by_cases h : e.2.card_id = c
      · have hnc : ¬ e.2.card_id = cid := by rw [h]; exact hc
        simp [h, hnc, hc]
      · simp [h]
    rw [h1, h2]
    simp [skillsFor]

theorem cardRowOf_now_irrelevant (cid : Nat) (card : CardDict) (now now2 f : String)
    (hf : card.fetched_at = some f) (hfne : f ≠ "") :
    cardRowOf cid card now = cardRowOf cid card now2 := by
  simp [cardRowOf, hf, pyOr, hfne]

/-! ### Claims C1 and C10 -/

/-- C1: upserting the same parse result `R = (card, skills)` twice is
observationally identical to upserting it once — for every card id `c` the
visible card row and skill rows agree between the two states — and after
one upsert the card row holds exactly `R`'s field values (name, source
URL, fetched-at, raw payload) while the skill rows for `R.card_id` are
exactly `R`'s skills in `idx` order, with no skill row from any earlier
ingest remaining.  The hypotheses state that `R` is a parse result: the
parser always emits a name, a source URL and a non-empty `fetched_at`
timestamp. -/
theorem C1_upsert_idempotent (st : DBState) (cid : Nat) (card : CardDict)
    (sks : List Skill) (now now2 : String) (c : Nat) (n u f : String)
    (hn : card.name = some n) (hu : card.source_url = some u)
    (hf : card.fetched_at = some f) (hfne : f ≠ "") :
    cardsLookup (upsert_card (upsert_card st cid card sks now) cid card sks now2) c =
        cardsLookup (upsert_card st cid card sks now) c ∧
      skillsFor (upsert_card (upsert_card st cid card sks now) cid card sks now2) c =
        skillsFor (upsert_card st cid card sks now) c ∧
      skillsFor (upsert_card st cid card sks now) cid =
        sks.map (fun s => Skill.to_row s cid) ∧
      cardsLookup (upsert_card st cid card sks now) cid =
        some (cardRowOf cid card now) ∧
      (cardRowOf cid card now).name = n ∧
      (cardRowOf cid card now).source_url = u ∧
      (cardRowOf cid card now).fetched_at = f ∧
      (cardRowOf cid card now).raw_json = card := by
  have hrow : cardRowOf cid card now2 = cardRowOf cid card now :=
    cardRowOf_now_irrelevant cid card now2 now f hf hfne
  refine ⟨?_, ?_, ?_, ?_, ?_, ?_, ?_, rfl⟩
  · rw [cardsLookup_upsert, cardsLookup_upsert]
    by_cases hc : c = cid
    · rw [if_pos hc, if_pos hc, hrow]
    · rw [if_neg hc, if_neg hc]
  · rw [skillsFor_upsert, skillsFor_upsert]
    by_cases hc : c = cid
    · rw [if_pos hc, if_pos hc]
    · rw [if_neg hc, if_neg hc]
  · rw [skillsFor_upsert, if_pos rfl]
  · rw [cardsLookup_upsert, if_pos rfl]
  · show pyOr card.name "" = n
    rw [hn, pyOr_some_empty]
  · show pyOr card.source_url "" = u
    rw [hu, pyOr_some_empty]
  · show pyOr card.fetched_at now = f
    rw [hf, pyOr, if_neg hfne]

/-- C1 witness: a concrete parse result upserted twice into a fresh store;
the second upsert leaves the observable card row unchanged and the skill
rows are exactly the parsed skills. -/
theorem C1_upsert_idempotent_witness :
    cardsLookup (upsert_card (upsert_card emptyDB 7
          { card_id := 7, name := some "A", source_url := some "u",
            fetched_at := some "t" }
          [{ idx := 0, kind := some "attack", name := some "Hit",
             cost := ["colorless"], damage := some "10" }] "t1") 7
        { card_id := 7, name := some "A", source_url := some "u",
          fetched_at := some "t" }
        [{ idx := 0, kind := some "attack", name := some "Hit",
           cost := ["colorless"], damage := some "10" }] "t2") 7 =
      cardsLookup (upsert_card emptyDB 7
        { card_id := 7, name := some "A", source_url := some "u",
          fetched_at := some "t" }
        [{ idx := 0, kind := some "attack", name := some "Hit",
           cost := ["colorless"], damage := some "10" }] "t1") 7 ∧
    skillsFor (upsert_card emptyDB 7
        { card_id := 7, name := some "A", source_url := some "u",
          fetched_at := some "t" }
        [{ idx := 0, kind := some "attack", name := some "Hit",
           cost := ["colorless"], damage := some "10" }] "t1") 7 =
      ([({ idx := 0, kind := some "attack", name := some "Hit",
           cost := ["colorless"], damage := some "10" } : Skill)]).map
        (fun s => Skill.to_row s 7) := by
  have h := C1_upsert_idempotent emptyDB 7
    { card_id := 7, name := some "A", source_url := some "u", fetched_at := some "t" }
    [{ idx := 0, kind := some "attack", name := some "Hit",
       cost := ["colorless"], damage := some "10" }] "t1" "t2" 7 "A" "u" "t"
    rfl rfl rfl (by decide)
  exact ⟨h.1, h.2.2.1⟩

/-- C10: for every card dict — in particular one whose name or source URL
is absent, None, or empty — the upsert stores a row (it never fails on
the NOT NULL constraints of `cards.name` and `cards.source_url`), and for
an absent/None/empty name or source URL the stored value is the empty
string, because `upsert_card` binds `card.get("name") or ""` and
`card.get("source_url") or ""`. -/
theorem C10_not_null_coercion (st : DBState) (cid : Nat) (card : CardDict)
    (sks : List Skill) (now : String) :
    cardsLookup (upsert_card st cid card sks now) cid =
        some (cardRowOf cid card now) ∧
      ((card.name = none ∨ card.name = some "") →
        (cardRowOf cid card now).name = "") ∧
      ((card.source_url = none ∨ card.source_url = some "") →
        (cardRowOf cid card now).source_url = "") := by
  refine ⟨by rw [cardsLookup_upsert, if_pos rfl], ?_, ?_⟩
  · intro h
    show pyOr card.name "" = ""
    rcases h with h | h <;> simp [h, pyOr]
  · intro h
    show pyOr card.source_url "" = ""
    rcases h with h | h <;> simp [h, pyOr]

/-- C10 witness: a card dict with no name and an empty source URL is stored
with empty strings in both NOT NULL columns. -/
theorem C10_not_null_coercion_witness :
    cardsLookup (upsert_card emptyDB 3
          { card_id := 3, source_url := some "" } [] "t") 3 =
        some (cardRowOf 3 { card_id := 3, source_url := some "" } "t") ∧
      (cardRowOf 3 ({ card_id := 3, source_url := some "" } : CardDict) "t").name = "" ∧
      (cardRowOf 3 ({ card_id := 3, source_url := some "" } : CardDict) "t").source_url = "" := by
  have h := C10_not_null_coercion emptyDB 3 { card_id := 3, source_url := some "" } [] "t"
  exact ⟨h.1, h.2.1 (Or.inl rfl), h.2.2 (Or.inr rfl)⟩

/-! ### __main__.cmd_sync: result-processing loop

Embedding of the completion loop of `cmd_sync`.  Each finished future
yields a `FetchResult`; results are processed in completion order, which
the model takes as the order of the `results` list.  For each result:

  * `card is None or skills is None` → `fail += 1` (covers both
    `not_found` / `redirected_to_list` and fetch or parse errors);
  * otherwise, if `allowed_marks is not None` and
    `(card.get("regulation_mark") or "").strip().upper()` is not in
    `allowed_marks` → `skipped += 1` and the card is dropped;
  * otherwise `upsert_card` and `ok += 1`.

The final line of `cmd_sync` is `return 0 if fail == 0 else 2`. -/

/-- The `FetchResult` dataclass of __main__.py. -/
structure FetchResult where
  card_id : Nat
  card : Option CardDict := none
  skills : Option (List Skill) := none
  error : Option String := none

/-- The `ok`, `skipped`, `fail` counters. -/
structure SyncCounters where
  ok : Nat
  skipped : Nat
  fail : Nat
deriving DecidableEq

/-- The mark compared against `allowed_marks`:
`(res.card.get("regulation_mark") or "").strip().upper()`. -/
def markOf (card : CardDict) : String :=
  pyUpper (pyStrip (pyOr card.regulation_mark ""))

/-- One iteration of the completion loop of `cmd_sync`. -/
def processResult (allowed : Option (List String)) (now : String)
    (acc : DBState × SyncCounters) (res : FetchResult) : DBState × SyncCounters :=
  match res.card, res.skills with
  | some card, some sks =>
    match allowed with
    | some marks =>
      if markOf card ∈ marks then
        (upsert_card acc.1 res.card_id card sks now,
          { acc.2 with ok := acc.2.ok + 1 })
      else (acc.1, { acc.2 with skipped := acc.2.skipped + 1 })
    | none =>
      (upsert_card acc.1 res.card_id card sks now,
        { acc.2 with ok := acc.2.ok + 1 })
  | _, _ => (acc.1, { acc.2 with fail := acc.2.fail + 1 })

/-- The whole completion loop, over results in completion order. -/
def syncFold (allowed : Option (List String)) (now : String) (init : DBState)
    (results : List FetchResult) : DBState × SyncCounters :=
  results.foldl (processResult allowed now) (init, ⟨0, 0, 0⟩)

/-- The exit status of `cmd_sync` once the fetch phase ran:
`0 if fail == 0 else 2`. -/
def syncExitCode (c : SyncCounters) : Nat :=
  if c.fail = 0 then 0 else 2

/-- A result that the loop counts as a failure. -/
def failedFetch (r : FetchResult) : Bool :=
  r.card.isNone || r.skills.isNone

theorem processResult_fail (allowed : Option (List String)) (now : String)
    (acc : DBState × SyncCounters) (res : FetchResult) :
    ((processResult allowed now acc res).2).fail =
      acc.2.fail + (if failedFetch res then 1 else 0) := by
  rcases res with ⟨cid, card?, sks?, err?⟩
  cases card? with
  | none => simp [processResult, failedFetch]
  | some card =>
    cases sks? with
    | none => simp [processResult, failedFetch]
    | some sks =>
      cases allowed with
      | none => simp [processResult, failedFetch]
      | some marks =>
        by_cases hm : markOf card ∈ marks <;>
          simp [processResult, failedFetch, hm]

theorem syncFold_fail_count (allowed : Option (List String)) (now : String) :
    ∀ (results : List FetchResult) (acc : DBState × SyncCounters),
      ((results.foldl (processResult allowed now) acc).2).fail =
        acc.2.fail + results.countP failedFetch := by
  intro results
  induction results with
  | nil => intro acc; simp
  | cons r rs ih =>
    intro acc
    rw [List.foldl_cons, ih, List.countP_cons, processResult_fail]
    by_cases hr : failedFetch r
    · simp [hr]
      omega
    · simp [hr]

/-! ### Claims C6 and C9 -/

/-- C6: in a sync run with a set of allowed regulation marks, a
successfully parsed card whose mark (upper-cased, as computed by the code)
is outside the set is not inserted — the store is unchanged, so no row for
that card appears — and `skipped`, not `fail`, is incremented; a parsed
card whose mark is in the set is upserted and counted in `ok`. -/
theorem C6_regulation_filter (st : DBState) (c : SyncCounters) (res : FetchResult)
    (card : CardDict) (sks : List Skill) (marks : List String) (now : String)
    (hcard : res.card = some card) (hsks : res.skills = some sks) :
    (markOf card ∉ marks →
        processResult (some marks) now (st, c) res =
          (st, { c with skipped := c.skipped + 1 })) ∧
      (markOf card ∈ marks →
        processResult (some marks) now (st, c) res =
          (upsert_card st res.card_id card sks now, { c with ok := c.ok + 1 })) ∧
      (markOf card ∉ marks →
        cardsLookup (processResult (some marks) now (st, c) res).1 res.card_id =
          cardsLookup st res.card_id) := by
  rcases res with ⟨cid, card?, sks?, err?⟩
  simp only at hcard hsks
  subst hcard
  subst hsks
  refine ⟨fun hm => ?_, fun hm => ?_, fun hm => ?_⟩
  · simp [processResult, hm]
  · simp [processResult, hm]
  · simp [processResult, hm]

/-- C6 witness: a parsed card with mark "F" against allowed marks
\x7bH, I\x7d is skipped and not stored; one with mark "h" (upper-cased to
"H") is upserted and counted in `ok`. -/
theorem C6_regulation_filter_witness :
    processResult (some ["H", "I"]) "t"
        (emptyDB, ⟨0, 0, 0⟩)
        { card_id := 9, card := some { card_id := 9, regulation_mark := some "F" },
          skills := some [] } =
      (emptyDB, ⟨0, 1, 0⟩) ∧
    processResult (some ["H", "I"]) "t"
        (emptyDB, ⟨0, 0, 0⟩)
        { card_id := 9, card := some { card_id := 9, regulation_mark := some "h" },
          skills := some [] } =
      (upsert_card emptyDB 9 { card_id := 9, regulation_mark := some "h" } [] "t",
        ⟨1, 0, 0⟩) := by
  constructor
  · exact (C6_regulation_filter emptyDB ⟨0, 0, 0⟩ _
      { card_id := 9, regulation_mark := some "F" } [] ["H", "I"] "t" rfl rfl).1
      (by decide)
  · exact (C6_regulation_filter emptyDB ⟨0, 0, 0⟩ _
      { card_id := 9, regulation_mark := some "h" } [] ["H", "I"] "t" rfl rfl).2.1
      (by decide)

/-- C9: for every sync run that reaches the fetch phase (any list of
completed results, any allowed-mark set, any starting store), the exit
status is 0 exactly when the final `fail` counter is 0, which happens
exactly when no result failed; otherwise the exit status is 2 and
`fail > 0`. -/
theorem C9_exit_code (allowed : Option (List String)) (now : String) (init : DBState)
    (results : List FetchResult) :
    (syncExitCode (syncFold allowed now init results).2 = 0 ∧
        (syncFold allowed now init results).2.fail = 0 ∧
        results.countP failedFetch = 0) ∨
      (syncExitCode (syncFold allowed now init results).2 = 2 ∧
        0 < (syncFold allowed now init results).2.fail ∧
        0 < results.countP failedFetch) := by
  have hfail : (syncFold allowed now init results).2.fail =
      results.countP failedFetch := by
    rw [syncFold, syncFold_fail_count]
    simp
  by_cases h : results.countP failedFetch = 0
  · left
    refine ⟨?_, by rw [hfail, h], h⟩
    rw [syncExitCode, if_pos (by rw [hfail, h])]
  · right
    refine ⟨?_, by rw [hfail]; omega, by omega⟩
    rw [syncExitCode, if_neg (by rw [hfail]; exact h)]
